import Mathlib

/-!
Verification of the partition placement and storage rebalancing core of
kafka-kit: constraint-based candidate selection, the rebalance relocation
planner, relocation-plan application, and the replication-throttle helpers.
Go float64 quantities (storage, network throughput) are modelled as ℚ;
Go maps are modelled as association lists observed through first-match
lookup; pointer mutation is modelled by returning the updated values.
-/

namespace KafkaKit

/-- Broker record (kafkazk.Broker): ID, rack locality, free storage,
use count and status flags. -/
structure Broker where
  id : Int
  locality : String
  storageFree : ℚ
  used : Nat
  isNew : Bool
  missing : Bool
  replace : Bool
deriving DecidableEq

/-- Constraint set (kafkazk.constraints): request size plus forbidden
locality and ID sets; the Go map[string]bool / map[int]bool sets are
modelled as lists observed through membership. -/
structure constraints where
  requestSize : ℚ
  locality : List String
  id : List Int
deriving DecidableEq

/-- Insert into a list-modelled set (Go map[k]bool assignment to true). -/
def setInsert {α : Type} [DecidableEq α] (xs : List α) (x : α) : List α :=
  if x ∈ xs then xs else x :: xs

/-- newConstraints returns an empty constraints value. -/
def newConstraints : constraints :=
  { requestSize := 0, locality := [], id := [] }

/-- constraints.passes: returns the error for the first failing check
(storage exhaustion, then locality exhaustion, then duplicate ID), or
none when the broker passes. -/
def passes (c : constraints) (b : Broker) : Option String :=
  if b.storageFree - c.requestSize < 0 then
    some ("Locality " ++ b.locality ++ " exhausted of storage capacity")
  else if b.locality ∈ c.locality then
    some ("Locality " ++ b.locality ++ " exhausted of available brokers")
  else if b.id ∈ c.id then
    some ("ID " ++ toString b.id ++ " already in replica set")
  else
    none

/-- constraints.add: subtract the request size from the broker's free
storage, then record its locality (only when non-empty) and its ID in
the forbidden sets.  The Go code mutates the broker and the constraints
through pointers; both updated values are returned here. -/
def constraintsAdd (c : constraints) (b : Broker) : constraints × Broker :=
  let b' := { b with storageFree := b.storageFree - c.requestSize }
  let c' := { c with
    locality := if b.locality ≠ "" then setInsert c.locality b.locality else c.locality,
    id := setInsert c.id b.id }
  (c', b')

/-- Loop of mergeConstraints: brokers marked for replacement are skipped;
otherwise the locality (only when non-empty) and ID are merged in. -/
def mergeConstraintsLoop (c : constraints) : List Broker → constraints
  | [] => c
  | b :: rest =>
    if b.replace then mergeConstraintsLoop c rest
    else
      mergeConstraintsLoop
        { c with
          locality := if b.locality ≠ "" then setInsert c.locality b.locality else c.locality,
          id := setInsert c.id b.id } rest

/-- mergeConstraints: build a constraints value from the attributes of all
non-replace brokers of the list. -/
def mergeConstraints (bl : List Broker) : constraints :=
  mergeConstraintsLoop newConstraints bl

/-- Insertion step of the insertion sort used to model in-place slice sorts. -/
def insertBy {α : Type} (le : α → α → Bool) (x : α) : List α → List α
  | [] => [x]
  | y :: ys => if le x y then x :: y :: ys else y :: insertBy le x ys

/-- Insertion sort used to model in-place slice sorts. -/
def sortBy {α : Type} (le : α → α → Bool) : List α → List α
  | [] => []
  | x :: xs => insertBy le x (sortBy le xs)

/-- Broker order of brokersByStorage: storage_free descending, ties broken
by ascending ID. -/
def storageLe (a b : Broker) : Bool :=
  if b.storageFree < a.storageFree then true
  else if a.storageFree = b.storageFree then decide (a.id ≤ b.id)
  else false

/-- Modelled from the spec: the brokersByStorage sort (its implementation is
not among the provided sources) sorts by storage_free descending with ties
broken by ascending ID. -/
def sortByStorage (bl : List Broker) : List Broker :=
  sortBy storageLe bl

/-- Modelled from the spec: SortPseudoShuffle (its implementation is not
among the provided sources) is a deterministic pseudo-shuffle reproducible
from the seed; modelled as a rotation of the list by the seed. -/
def sortPseudoShuffle (p : Int) (bl : List Broker) : List Broker :=
  bl.rotate p.natAbs

/-- Message of errInvalidSelectionMethod. -/
def errInvalidSelectionMethod : String := "Invalid selection method"

/-- Candidate scan of bestCandidate: walk the sorted list; on the first
broker that passes, absorb it into the constraints, increment its used
counter and return it; on exhaustion return the last violation observed.
Returns ((chosen broker, error), updated broker list, updated constraints),
where the Go code reaches the same effect by pointer mutation. -/
def bcLoop (c : constraints) : List Broker → Option String →
    (Option Broker × Option String) × List Broker × constraints
  | [], lastErr => ((none, lastErr), [], c)
  | b :: rest, _ =>
    match passes c b with
    | none =>
      let cb := constraintsAdd c b
      let b' := { cb.2 with used := cb.2.used + 1 }
      ((some b', none), b' :: rest, cb.1)
    | some e =>
      let r := bcLoop c rest (some e)
      (r.1, b :: r.2.1, r.2.2)

/-- Sort applied by bestCandidate for a selection method, none for an
invalid method. -/
def sortForMethod (method : String) (p : Int) (bl : List Broker) :
    Option (List Broker) :=
  if method = "count" then some (sortPseudoShuffle p bl)
  else if method = "storage" then some (sortByStorage bl)
  else none

/-- brokerList.bestCandidate: sort by the selection method, then scan for
the first broker passing the constraints. -/
def bestCandidate (bl : List Broker) (c : constraints) (method : String) (p : Int) :
    (Option Broker × Option String) × List Broker × constraints :=
  match sortForMethod method p bl with
  | none => ((none, some errInvalidSelectionMethod), bl, c)
  | some sorted => bcLoop c sorted none

/-- First-match association-list lookup, modelling a Go map read. -/
def lookupA {α β : Type} [DecidableEq α] : List (α × β) → α → Option β
  | [], _ => none
  | (k, v) :: rest, k' => if k = k' then some v else lookupA rest k'

/-- Broker record of the metrics client (kafkametrics.Broker): ID,
instance type and outbound network throughput. -/
structure KMBroker where
  id : Int
  instanceType : String
  netTX : ℚ
deriving DecidableEq

/-- Topic configuration fetched from ZooKeeper (kafkazk.TopicConfig). -/
structure TopicConfig where
  version : Int
  config : List (String × String)
deriving DecidableEq

/-- Throttled leader and follower brokers (ThrottledReplicas). -/
structure ThrottledReplicas where
  leaders : List KMBroker
  followers : List KMBroker
deriving DecidableEq

/-- Limits: map of instance type to network bandwidth limit. -/
abbrev Limits := List (String × ℚ)

/-- The hardcoded BWLimits table. -/
def BWLimits : Limits :=
  [("d2.4xlarge", 240), ("d2.2xlarge", 120), ("d2.xlarge", 60)]

/-- Limits.headroom: bandwidth limit of the instance type minus the
broker's outbound throughput; unknown instance types are an error. -/
def headroom (l : Limits) (b : KMBroker) : Except String ℚ :=
  match lookupA l b.instanceType with
  | some k => Except.ok (k - b.netTX)
  | none => Except.error ("Unknown instance type")

/-- Loop of highestLeaderNetTX: the high-water mark starts at 0.00 and
only a strictly greater NetTX replaces the running broker. -/
def hlLoop : List KMBroker → ℚ → Option KMBroker → Option KMBroker
  | [], _, broker => broker
  | b :: rest, hwm, broker =>
    if b.netTX > hwm then hlLoop rest b.netTX (some b)
    else hlLoop rest hwm broker

/-- ThrottledReplicas.highestLeaderNetTX: the leader with the highest
outbound network throughput; nil (none) when no leader exceeds the
initial 0.00 high-water mark. -/
def highestLeaderNetTX (t : ThrottledReplicas) : Option KMBroker :=
  hlLoop t.leaders 0 none

/-- Split a character list at every occurrence of the separator
(strings.Split for a one-character separator); the empty input yields
one empty entry. -/
def splitChar (sep : Char) : List Char → List (List Char)
  | [] => [[]]
  | c :: cs =>
    if c = sep then [] :: splitChar sep cs
    else
      match splitChar sep cs with
      | [] => [[c]]
      | t :: ts => (c :: t) :: ts

/-- Accumulator of digitsVal; fails on the first non-digit character. -/
def digitsValAux : List Char → Nat → Option Nat
  | [], acc => some acc
  | c :: cs, acc =>
    if c.isDigit then digitsValAux cs (acc * 10 + (c.toNat - 48)) else none

/-- Numeric value of a non-empty digit run; none when empty or when a
non-digit occurs. -/
def digitsVal : List Char → Option Nat
  | [] => none
  | c :: cs => digitsValAux (c :: cs) 0

/-- strconv.Atoi: optional sign followed by at least one digit (the
machine-size range check of Go is not modelled, no claim depends on it). -/
def atoi (s : List Char) : Option Int :=
  match s with
  | '-' :: rest => (digitsVal rest).map (fun n => -(n : Int))
  | '+' :: rest => (digitsVal rest).map (fun n => (n : Int))
  | _ => (digitsVal s).map (fun n => (n : Int))

/-- Loop of brokersFromThrottleList: for each comma-separated replica
entry take the piece after the first colon and parse the broker ID.  An
entry without a colon makes the Go index expression panic (modelled as
none); a bad ID returns the brokers collected so far with an error. -/
def btlLoop : List (List Char) → List Int → Option (List Int × Option String)
  | [], brokers => some (brokers, none)
  | r :: rs, brokers =>
    match (splitChar ':' r).get? 1 with
    | none => none
    | some ids =>
      match atoi ids with
      | none => some (brokers, some ("Bad broker ID " ++ String.mk ids))
      | some id => btlLoop rs (brokers ++ [id])

/-- brokersFromThrottleList: the broker IDs of a comma-separated throttled
replica list; none models the index-out-of-range panic. -/
def brokersFromThrottleList (l : String) : Option (List Int × Option String) :=
  btlLoop (splitChar ',' l.data) []

/-- An entry has a colon when the colon-split has a piece at index 1. -/
def entryHasColon (r : List Char) : Bool :=
  ((splitChar ':' r).get? 1).isSome

/-- An entry parses when it has a colon and the piece after the first
colon is a well-formed integer. -/
def entryParses (r : List Char) : Bool :=
  match (splitChar ':' r).get? 1 with
  | none => false
  | some ids => (atoi ids).isSome

/-- First ill-formed entry of a throttle list, scanning in order. -/
def firstBadEntry : List (List Char) → Option (List Char)
  | [] => none
  | r :: rs => if entryParses r then firstBadEntry rs else some r

/-- Append when absent: models insertion into a deduplicating Go map set,
keeping insertion order where Go map iteration order is undefined. -/
def appendIfAbsent {α : Type} [DecidableEq α] (xs : List α) (x : α) : List α :=
  if x ∈ xs then xs else xs ++ [x]

/-- Metrics lookup loop of brokersFromConfig: map each broker ID through
the metrics map, returning early with an error on the first ID that has
no metrics entry. -/
def metricsFor (b : List (Int × KMBroker)) :
    List Int → List KMBroker → List KMBroker × Option String
  | [], acc => (acc, none)
  | id :: rest, acc =>
    match lookupA b id with
    | some broker => metricsFor b rest (acc ++ [broker])
    | none =>
      (acc, some ("Broker " ++ toString id ++
        " from the topic config not found in the broker metrics map"))

/-- brokersFromConfig: collect the throttled leader and follower broker
IDs of a topic config and map them through the broker metrics.  Parse
errors return before the metrics lookups; a missing metrics entry returns
early with the brokers collected so far.  The leader-then-follower order
stands in for the undefined Go map iteration order; none models a panic
propagated from brokersFromThrottleList. -/
def brokersFromConfig (b : List (Int × KMBroker)) (c : TopicConfig) :
    Option ((List KMBroker × List KMBroker) × List String) :=
  let step : String → Option (List Int × List String) := fun t =>
    match lookupA c.config (t ++ ".replication.throttled.replicas") with
    | none => some ([], [])
    | some l =>
      match brokersFromThrottleList l with
      | none => none
      | some (blist, err) =>
        some (blist.foldl appendIfAbsent [],
          match err with
          | some e => [e]
          | none => [])
  match step ("leader"), step ("follower") with
  | some (lids, lerrs), some (fids, ferrs) =>
    let errs := lerrs ++ ferrs
    if errs.length > 0 then some (([], []), errs)
    else
      match metricsFor b lids [] with
      | (leaders, some e) => some ((leaders, []), errs ++ [e])
      | (leaders, none) =>
        match metricsFor b fids [] with
        | (followers, some e) => some ((leaders, followers), errs ++ [e])
        | (followers, none) => some ((leaders, followers), [])
  | _, _ => none

/-- Loop of replicasFromTopicConfigs over the topic configs (the list
order stands in for the undefined Go map iteration order). -/
def rftcLoop (b : List (Int × KMBroker)) :
    List (String × TopicConfig) → ThrottledReplicas → List String →
    Option (ThrottledReplicas × List String)
  | [], t, errs => some (t, errs)
  | (_, cfg) :: rest, t, errs =>
    match brokersFromConfig b cfg with
    | none => none
    | some (brokers, es) =>
      rftcLoop b rest ⟨t.leaders ++ brokers.1, t.followers ++ brokers.2⟩ (errs ++ es)

/-- replicasFromTopicConfigs: accumulate throttled leaders, followers and
errors across all topic configs. -/
def replicasFromTopicConfigs (b : List (Int × KMBroker))
    (c : List (String × TopicConfig)) : Option (ThrottledReplicas × List String) :=
  rftcLoop b c ⟨[], []⟩ []

/-- Tail of updateReplicationThrottle after the throttled replicas are
collected: the constraining leader is passed to Limits.headroom without a
nil check, so a nil leader is a nil-pointer dereference (none). -/
def throttleFlowTail (t : ThrottledReplicas) : Option (Except String Unit) :=
  match highestLeaderNetTX t with
  | none => none
  | some leader =>
    match headroom BWLimits leader with
    | Except.error e => some (Except.error e)
    | Except.ok _ => some (Except.ok ())

/-- Fragment of updateReplicationThrottle from the call of
replicasFromTopicConfigs on (the earlier ZooKeeper and metrics fetches
having succeeded, the Go variable err is nil there): when the returned
error list is non-empty the code returns the nil err variable, that is,
it reports success. -/
def updateReplicationThrottleFrom (b : List (Int × KMBroker))
    (c : List (String × TopicConfig)) : Option (Except String Unit) :=
  match replicasFromTopicConfigs b c with
  | none => none
  | some (brokers, errs) =>
    if errs.length > 0 then some (Except.ok ())
    else throttleFlowTail brokers

/-- Partition (kafkazk.Partition): topic, partition number and replica
broker IDs. -/
structure Partition where
  topic : String
  partition : Int
  replicas : List Int
deriving DecidableEq

/-- Broker registry keyed by ID (kafkazk.BrokerMap). -/
abbrev BrokerMap := List Broker

/-- Partition metadata: (topic, partition) to size (PartitionMetaMap). -/
abbrev PartitionMetaMap := List ((String × Int) × ℚ)

/-- Broker ID to assigned partitions (kafkazk.Mappings). -/
abbrev Mappings := List (Int × List Partition)

/-- Broker map read by ID. -/
def bmGet : BrokerMap → Int → Option Broker
  | [], _ => none
  | b :: rest, id => if b.id = id then some b else bmGet rest id

/-- Write a broker back into the map under its ID (models mutation through
a shared pointer). -/
def bmSet (bm : BrokerMap) (b : Broker) : BrokerMap :=
  bm.map (fun x => if x.id = b.id then b else x)

/-- Overwrite storage_free of the broker with the given ID. -/
def bmSetStorage (bm : BrokerMap) (id : Int) (v : ℚ) : BrokerMap :=
  bm.map (fun x => if x.id = id then { x with storageFree := v } else x)

/-- Modelled from the spec: BrokerMap.Mean (implementation not among the
provided sources) — the arithmetic mean of storage_free over non-missing
brokers. -/
def bmMean (bm : BrokerMap) : ℚ :=
  let xs := bm.filter (fun b => !b.missing)
  (xs.map (fun b => b.storageFree)).sum / (xs.length : ℚ)

/-- Modelled from the spec: partitionMeta.Size (implementation not among
the provided sources) — the recorded size of a (topic, partition). -/
def pmmSize (pmm : PartitionMetaMap) (p : Partition) : Option ℚ :=
  lookupA pmm (p.topic, p.partition)

/-- Partition order for LargestPartitions: size descending, ties by topic
then partition number for determinism. -/
def partitionSizeLe (pmm : PartitionMetaMap) (a b : Partition) : Bool :=
  let sa := (pmmSize pmm a).getD 0
  let sb := (pmmSize pmm b).getD 0
  if sb < sa then true
  else if sa = sb then
    if a.topic = b.topic then decide (a.partition ≤ b.partition)
    else decide (a.topic < b.topic)
  else false

/-- Modelled from the spec: Mappings.LargestPartitions (implementation not
among the provided sources) — the broker's top-N partitions by size. -/
def largestPartitions (m : Mappings) (id : Int) (limit : Nat)
    (pmm : PartitionMetaMap) : List Partition :=
  (sortBy (partitionSizeLe pmm) ((lookupA m id).getD [])).take limit

/-- Modelled from the spec: Mappings.Remove (implementation not among the
provided sources) — remove the partition from the source broker's
assigned list. -/
def mappingsRemove (m : Mappings) (id : Int) (p : Partition) : Mappings :=
  m.map (fun e =>
    if e.1 = id then
      (e.1, e.2.filter (fun q => !(q.topic == p.topic && q.partition == p.partition)))
    else e)

/-- relocation: a partition scheduled to move to a destination broker. -/
structure relocation where
  partition : Partition
  destination : Int
deriving DecidableEq

/-- Append to the per-source relocation slice (relos[sourceID] append). -/
def relosAppend : List (Int × List relocation) → Int → relocation →
    List (Int × List relocation)
  | [], k, x => [(k, [x])]
  | (k', l) :: rest, k, x =>
    if k' = k then (k', l ++ [x]) :: rest else (k', l) :: relosAppend rest k x

/-- Relocations recorded for a source broker. -/
def relosGet (rs : List (Int × List relocation)) (k : Int) : List relocation :=
  (lookupA rs k).getD []

/-- relocationPlan: topic to partition to the ordered (source, destination)
pairs recorded for it. -/
abbrev relocationPlan := List (String × List (Int × List (Int × Int)))

/-- Append a pair to a partition's chain inside one topic's table. -/
def pairsAppend : List (Int × List (Int × Int)) → Int → (Int × Int) →
    List (Int × List (Int × Int))
  | [], k, pr => [(k, [pr])]
  | (k', l) :: rest, k, pr =>
    if k' = k then (k', l ++ [pr]) :: rest else (k', l) :: pairsAppend rest k pr

/-- relocationPlan.add: append a (source, destination) pair to the
partition's chain. -/
def planAdd : relocationPlan → Partition → (Int × Int) → relocationPlan
  | [], p, pr => [(p.topic, [(p.partition, [pr])])]
  | (t, parts) :: rest, p, pr =>
    if t = p.topic then (t, pairsAppend parts p.partition pr) :: rest
    else (t, parts) :: planAdd rest p pr

/-- relocationPlan.isPlanned: the ordered pair chain planned for a
partition; none when no relocation is planned. -/
def planIsPlanned (r : relocationPlan) (p : Partition) : Option (List (Int × Int)) :=
  match lookupA r p.topic with
  | none => none
  | some parts => lookupA parts p.partition

/-- Entry rewrite of applyRelocationPlan: the range variable r keeps the
entry's original value, so every pair is compared against the original
entry and the cell ends at the destination of the last matching pair. -/
def applyPairs (replicas : List Int) (pairs : List (Int × Int)) : List Int :=
  replicas.map (fun r => pairs.foldl (fun cur pr => if r = pr.1 then pr.2 else cur) r)

/-- applyRelocationPlan: walk the partition list once and rewrite the
replica set of every planned partition (the optional leader optimization
behind the optimize-leaders flag is outside the claims and its
implementation is not among the provided sources). -/
def applyRelocationPlan (pm : List Partition) (plan : relocationPlan) :
    List Partition :=
  pm.map (fun p =>
    match planIsPlanned plan p with
    | some pairs => { p with replicas := applyPairs p.replicas pairs }
    | none => p)

/-- Chain application in the spec's words, for the refinement comparison:
the pairs are applied one after the other, each replacing every replica
entry equal to its source by its destination in the current replica set. -/
def applyPairsInOrder (replicas : List Int) (pairs : List (Int × Int)) : List Int :=
  pairs.foldl (fun reps pr => reps.map (fun r => if r = pr.1 then pr.2 else r)) replicas

/-- Plan application in the spec's words, for the refinement comparison. -/
def applyPlanInOrder (pm : List Partition) (plan : relocationPlan) :
    List Partition :=
  pm.map (fun p =>
    match planIsPlanned plan p with
    | some pairs => { p with replicas := applyPairsInOrder p.replicas pairs }
    | none => p)

/-- Sequential validity in the spec's words: each pair's source ID exists
in the replica set at the time the pair is applied. -/
def seqValidPairs (replicas : List Int) : List (Int × Int) → Bool
  | [] => true
  | pr :: rest =>
    replicas.contains pr.1 &&
      seqValidPairs (replicas.map (fun r => if r = pr.1 then pr.2 else r)) rest

/-- All pair chains stored in a relocation plan. -/
def planPairLists (plan : relocationPlan) : List (List (Int × Int)) :=
  (plan.map (fun e => e.2.map (fun q => q.2))).flatten

/-- Loop-invariant context of planRelocationsForBroker. -/
structure PlanCtx where
  sourceID : Int
  targetLocality : String
  offloadTargets : List Int
  localityScoped : Bool
  tolerance : ℚ
  meanStorageFree : ℚ
  partitionMeta : PartitionMetaMap
deriving DecidableEq

/-- Mutable state threaded through the relocation loop. -/
structure PlanState where
  brokers : BrokerMap
  relos : List (Int × List relocation)
  plan : relocationPlan
  mappings : Mappings
deriving DecidableEq

/-- Parameters of planRelocationsForBroker
(planRelocationsForBrokerParams). -/
structure PlanParams where
  sourceID : Int
  relos : List (Int × List relocation)
  mappings : Mappings
  brokers : BrokerMap
  partitionMeta : PartitionMetaMap
  plan : relocationPlan
  pass : Int
  topPartitionsLimit : Nat
  offloadTargets : List Int
deriving DecidableEq

/-- A Broker populated with just the ID (Go: Broker with ID field set),
used to add offload targets to the constraints without excluding their
rack IDs. -/
def emptyBrokerWithID (id : Int) : Broker :=
  ⟨id, "", 0, 0, false, false, false⟩

/-- Look up all IDs in the broker map; none when any is absent. -/
def bmGetAll (bm : BrokerMap) : List Int → Option (List Broker)
  | [] => some []
  | id :: rest =>
    match bmGet bm id, bmGetAll bm rest with
    | some b, some bs => some (b :: bs)
    | _, _ => none

/-- Destination selection of the relocation loop: under locality scoping
the first broker of the storage-sorted list with the source's locality
that is neither the source nor an offload target; otherwise bestCandidate
by storage under the constraints merged from the partition's other
replicas plus all offload targets.  Returns the chosen broker (none when
no candidate) and the broker map with the candidate-selector mutation
written back; the outer none models the panic on a replica ID missing
from the broker map. -/
def selectDest (ctx : PlanCtx) (brokers : BrokerMap) (p : Partition) :
    Option (Option Broker × BrokerMap) :=
  let brokerList := sortByStorage brokers
  if ctx.localityScoped then
    some (brokerList.find? (fun b =>
      b.locality == ctx.targetLocality && b.id != ctx.sourceID &&
        !(ctx.offloadTargets.contains b.id)), brokers)
  else
    match bmGetAll brokers (p.replicas.filter (fun id => id != ctx.sourceID)) with
    | none => none
    | some replicaSet =>
      let c0 := mergeConstraints replicaSet
      let c1 := ctx.offloadTargets.foldl
        (fun c id => (constraintsAdd c (emptyBrokerWithID id)).1) c0
      let r := bestCandidate brokerList c1 "storage" 0
      match r.1.1 with
      | none => some (none, brokers)
      | some d => some (some d, bmSet brokers d)

/-- Relocation loop of planRelocationsForBroker: for each top partition
choose a destination (stopping when none is found), reject the move when
the tolerance band around the mean would be violated (and continue with
the next partition), otherwise record the relocation, update both
storage_free values, unmap the partition from the source and break. -/
def planLoop (ctx : PlanCtx) :
    List Partition → PlanState → Nat → Option (Nat × PlanState)
  | [], st, reloCount => some (reloCount, st)
  | p :: rest, st, reloCount =>
    let pSize := (pmmSize ctx.partitionMeta p).getD 0
    match selectDest ctx st.brokers p with
    | none => none
    | some (none, bm') => some (reloCount, { st with brokers := bm' })
    | some (some dest, bm') =>
      match bmGet bm' ctx.sourceID with
      | none => none
      | some src =>
        let sourceFree := src.storageFree + pSize
        let destFree := dest.storageFree - pSize
        let sLim := ctx.meanStorageFree * (1 + ctx.tolerance)
        if sourceFree > sLim then
          planLoop ctx rest { st with brokers := bm' } reloCount
        else
          let dLim := ctx.meanStorageFree * (1 - ctx.tolerance)
          if destFree < dLim then
            planLoop ctx rest { st with brokers := bm' } reloCount
          else
            some (reloCount + 1,
              { brokers := bmSetStorage (bmSetStorage bm' ctx.sourceID sourceFree)
                  dest.id destFree,
                relos := relosAppend st.relos ctx.sourceID ⟨p, dest.id⟩,
                plan := planAdd st.plan p (ctx.sourceID, dest.id),
                mappings := mappingsRemove st.mappings ctx.sourceID p })

/-- planRelocationsForBroker: compute the arithmetic mean, enumerate the
source broker's largest partitions and run the relocation loop; none
models the nil dereference when the source broker is absent from the
map. -/
def planRelocationsForBroker (tolerance : ℚ) (localityScoped : Bool)
    (params : PlanParams) : Option (Nat × PlanState) :=
  let meanStorageFree := bmMean params.brokers
  let topPartn := largestPartitions params.mappings params.sourceID
    params.topPartitionsLimit params.partitionMeta
  match bmGet params.brokers params.sourceID with
  | none => none
  | some src0 =>
    planLoop
      ⟨params.sourceID, src0.locality, params.offloadTargets, localityScoped,
        tolerance, meanStorageFree, params.partitionMeta⟩
      topPartn
      ⟨params.brokers, params.relos, params.plan, params.mappings⟩ 0

/-- Broker status counters (kafkazk.BrokerStatus). -/
structure BrokerStatus where
  new : Nat
  missing : Nat
  oldMissing : Nat
  replace : Nat
deriving DecidableEq

/-- Outcome of the broker-validation status switch: the code either exits
the process or proceeds with validation. -/
inductive ValidateOutcome where
  | exit (code : Nat)
  | proceed
deriving DecidableEq

/-- Status switch of validateBrokersForRebalance: any missing,
previously-missing or replace-marked broker prints an error and exits the
process with status 1; otherwise validation proceeds (broker additions
only print a notice). -/
def validateBrokersStatusCheck (c : BrokerStatus) : ValidateOutcome :=
  if c.missing > 0 ∨ c.oldMissing > 0 ∨ c.replace > 0 then ValidateOutcome.exit 1
  else ValidateOutcome.proceed

/-! Lemmas and claim theorems. -/

theorem mem_setInsert {α : Type} [DecidableEq α] (xs : List α) (x y : α) :
    y ∈ setInsert xs x ↔ y = x ∨ y ∈ xs := by
  unfold setInsert
  split_ifs with h
  · constructor
    · exact Or.inr
    · rintro (rfl | hy)
      · exact h
      · exact hy
  · simp [List.mem_cons]

theorem mergeConstraintsLoop_empty_locality (bl : List Broker) (c : constraints) :
    "" ∈ (mergeConstraintsLoop c bl).locality ↔ "" ∈ c.locality := by
  induction bl generalizing c with
  | nil => simp [mergeConstraintsLoop]
  | cons b rest ih =>
    unfold mergeConstraintsLoop
    split_ifs with hr hl
    · exact ih c
    · refine (ih _).trans ?_
      show "" ∈ setInsert c.locality b.locality ↔ "" ∈ c.locality
      rw [mem_setInsert]
      constructor
      · rintro (h | h)
        · exact absurd h.symm hl
        · exact h
      · exact Or.inr
    · exact ih _

/-- C3: a broker fails the constraint check exactly when its storage would
go negative, or its locality is forbidden, or its ID is forbidden; the
checks are evaluated in that order, so the error returned names the first
of these conditions that holds. -/
theorem passes_order_characterization (c : constraints) (b : Broker) :
    ((passes c b).isSome ↔
      (b.storageFree - c.requestSize < 0 ∨ b.locality ∈ c.locality ∨ b.id ∈ c.id))
    ∧ (b.storageFree - c.requestSize < 0 →
        passes c b = some ("Locality " ++ b.locality ++ " exhausted of storage capacity"))
    ∧ (¬ b.storageFree - c.requestSize < 0 → b.locality ∈ c.locality →
        passes c b = some ("Locality " ++ b.locality ++ " exhausted of available brokers"))
    ∧ (¬ b.storageFree - c.requestSize < 0 → b.locality ∉ c.locality → b.id ∈ c.id →
        passes c b = some ("ID " ++ toString b.id ++ " already in replica set")) := by
  unfold passes
  split_ifs with h1 h2 h3 <;> simp_all

/-- Witness for C3 at a concrete broker failing only the duplicate-ID check. -/
theorem passes_order_characterization_witness :
    passes ⟨0, ["a"], [7]⟩ ⟨7, "b", 1, 0, false, false, false⟩
      = some ("ID " ++ toString (7 : Int) ++ " already in replica set") :=
  (passes_order_characterization ⟨0, ["a"], [7]⟩ ⟨7, "b", 1, 0, false, false, false⟩).2.2.2
    (by norm_num) (by decide) (by decide)

/-- C8: empty localities never enter the forbidden locality set, neither
through constraints.add nor through mergeConstraints, and when the empty
locality is not forbidden a broker with empty locality is never rejected
on locality grounds: it passes exactly when the storage and ID checks
pass. -/
theorem empty_locality_never_forbidden (c : constraints) (b : Broker) (bl : List Broker) :
    ("" ∈ (constraintsAdd c b).1.locality ↔ "" ∈ c.locality)
    ∧ "" ∉ (mergeConstraints bl).locality
    ∧ (b.locality = "" → "" ∉ c.locality →
        (passes c b = none ↔ ¬ b.storageFree - c.requestSize < 0 ∧ b.id ∉ c.id)) := by
  refine ⟨?_, ?_, ?_⟩
  · show "" ∈ (if b.locality ≠ "" then setInsert c.locality b.locality else c.locality)
        ↔ "" ∈ c.locality
    split_ifs with hl
    · rw [mem_setInsert]
      constructor
      · rintro (h | h)
        · exact absurd h.symm hl
        · exact h
      · exact Or.inr
    · exact Iff.rfl
  · rw [mergeConstraints, mergeConstraintsLoop_empty_locality]
    simp [newConstraints]
  · intro hb hc
    unfold passes
    rw [hb]
    split_ifs with h1 h2 <;> simp_all

/-- Witness for C8: a broker with empty locality passes against constraints
that forbid a non-empty locality and an unrelated ID. -/
theorem empty_locality_never_forbidden_witness :
    passes ⟨0, ["a"], [5]⟩ ⟨6, "", 3, 0, false, false, false⟩ = none :=
  ((empty_locality_never_forbidden ⟨0, ["a"], [5]⟩ ⟨6, "", 3, 0, false, false, false⟩
    []).2.2 rfl (by decide)).mpr ⟨by norm_num, by decide⟩

theorem bcLoop_cons_fail (c : constraints) (b : Broker) (rest : List Broker)
    (e0 : Option String) (e : String) (he : passes c b = some e) :
    bcLoop c (b :: rest) e0 =
      ((bcLoop c rest (some e)).1, b :: (bcLoop c rest (some e)).2.1,
        (bcLoop c rest (some e)).2.2) := by
  simp [bcLoop, he]

theorem bcLoop_exhausted (c : constraints) (l : List Broker) (e0 : Option String)
    (hall : ∀ b ∈ l, (passes c b).isSome) :
    bcLoop c l e0 = ((none, l.getLast?.elim e0 (fun b => passes c b)), l, c) := by
  induction l generalizing e0 with
  | nil => simp [bcLoop]
  | cons b rest ih =>
    have hb : (passes c b).isSome := hall b (List.mem_cons_self b rest)
    obtain ⟨e, he⟩ := Option.isSome_iff_exists.mp hb
    have hrec := ih (some e) (fun y hy => hall y (List.mem_cons_of_mem b hy))
    cases rest with
    | nil => simp [bcLoop, he, List.getLast?]
    | cons x xs =>
      rw [bcLoop_cons_fail c b (x :: xs) e0 e he, hrec]
      simp only [List.getLast?_cons_cons]
      rw [List.getLast?_eq_getLast (x :: xs) (List.cons_ne_nil x xs)]
      rfl

theorem insertBy_perm {α : Type} (le : α → α → Bool) (x : α) (l : List α) :
    List.Perm (insertBy le x l) (x :: l) := by
  induction l with
  | nil => exact List.Perm.refl _
  | cons y ys ih =>
    unfold insertBy
    split_ifs
    · exact List.Perm.refl _
    · exact (List.Perm.cons y ih).trans (List.Perm.swap x y ys)

theorem sortBy_perm {α : Type} (le : α → α → Bool) (l : List α) :
    List.Perm (sortBy le l) l := by
  induction l with
  | nil => exact List.Perm.refl _
  | cons x xs ih =>
    exact (insertBy_perm le x (sortBy le xs)).trans (List.Perm.cons x ih)

theorem sortForMethod_perm (method : String) (p : Int) (bl sorted : List Broker)
    (h : sortForMethod method p bl = some sorted) : List.Perm sorted bl := by
  unfold sortForMethod at h
  split_ifs at h
  · rw [Option.some.injEq] at h
    subst h
    exact List.rotate_perm bl p.natAbs
  · rw [Option.some.injEq] at h
    subst h
    exact sortBy_perm storageLe bl

/-- C4: when no broker of the sorted candidate list passes the constraints,
bestCandidate returns no broker together with the constraint violation of
the last broker examined, and leaves the brokers (hence every used counter
and storage_free value) and the constraint set unchanged: the returned list
is the sorted list itself, a permutation of the input with identical
elements. -/
theorem bestCandidate_exhausted (bl : List Broker) (c : constraints)
    (method : String) (p : Int) (sorted : List Broker)
    (hm : sortForMethod method p bl = some sorted) (hne : sorted ≠ [])
    (hall : ∀ b ∈ sorted, (passes c b).isSome) :
    bestCandidate bl c method p = ((none, passes c (sorted.getLast hne)), sorted, c)
    ∧ List.Perm sorted bl := by
  constructor
  · unfold bestCandidate
    rw [hm]
    show bcLoop c sorted none = _
    rw [bcLoop_exhausted c sorted none hall, List.getLast?_eq_getLast sorted hne]
    rfl
  · exact sortForMethod_perm method p bl sorted hm

/-- Witness for C4: a one-broker list whose only broker is already in the
replica set; the selector reports that violation and changes nothing. -/
theorem bestCandidate_exhausted_witness :
    bestCandidate [⟨1, "", 5, 0, false, false, false⟩] ⟨0, [], [1]⟩ ("storage") 0
      = ((none, passes ⟨0, [], [1]⟩ ⟨1, "", 5, 0, false, false, false⟩),
         [⟨1, "", 5, 0, false, false, false⟩], ⟨0, [], [1]⟩) :=
  (bestCandidate_exhausted [⟨1, "", 5, 0, false, false, false⟩] ⟨0, [], [1]⟩
    ("storage") 0 [⟨1, "", 5, 0, false, false, false⟩] rfl (by simp)
    (by norm_num [passes])).1

/-- C6 counterexample: with one broker marked for replacement the
validation switch exits the process with status 1; it does not return a
structured error to the caller. -/
theorem validateBrokersStatusCheck_counterexample :
    validateBrokersStatusCheck ⟨0, 0, 0, 1⟩ = ValidateOutcome.exit 1
    ∧ ValidateOutcome.exit 1 ≠ ValidateOutcome.proceed := by
  decide

/-- C6 amended: when rebalance validation finds any broker missing from the
registry or marked for replacement (Missing, OldMissing or Replace
positive), the command-layer code prints an error and exits the process
with status 1 instead of returning a structured InvalidOperation error. -/
theorem validateBrokersStatusCheck_exits (s : BrokerStatus)
    (h : s.missing > 0 ∨ s.oldMissing > 0 ∨ s.replace > 0) :
    validateBrokersStatusCheck s = ValidateOutcome.exit 1 := by
  unfold validateBrokersStatusCheck
  rw [if_pos h]

/-- Witness for the amended C6 at a concrete broker status. -/
theorem validateBrokersStatusCheck_exits_witness :
    validateBrokersStatusCheck ⟨2, 1, 0, 0⟩ = ValidateOutcome.exit 1 :=
  validateBrokersStatusCheck_exits ⟨2, 1, 0, 0⟩ (Or.inl (by decide))

/-- C7 (code bug, as the spec itself notes): on a topic config whose
throttle list carries a malformed broker ID, replicasFromTopicConfigs
accumulates a non-empty error list, yet updateReplicationThrottle returns
the stale nil err variable — success — instead of a MissingMetadata
aggregate of the accumulated errors. -/
theorem updateReplicationThrottle_swallows_errors :
    (replicasFromTopicConfigs []
        [("t", ⟨1, [("leader.replication.throttled.replicas", "2:zz")]⟩)]).map
        (fun r => r.2.length) = some 1
    ∧ updateReplicationThrottleFrom []
        [("t", ⟨1, [("leader.replication.throttled.replicas", "2:zz")]⟩)]
      = some (Except.ok ()) := by
  constructor <;> rfl

theorem hlLoop_none_iff (l : List KMBroker) (hwm : ℚ) (br : Option KMBroker) :
    hlLoop l hwm br = none ↔ br = none ∧ ∀ b ∈ l, b.netTX ≤ hwm := by
  induction l generalizing hwm br with
  | nil => simp [hlLoop]
  | cons b rest ih =>
    unfold hlLoop
    split_ifs with h
    · rw [ih]
      constructor
      · rintro ⟨hc, -⟩
        exact Option.noConfusion hc
      · rintro ⟨-, hall⟩
        exact absurd (hall b (List.mem_cons_self b rest)) (not_le.mpr h)
    · rw [ih]
      have hb : b.netTX ≤ hwm := not_lt.mp h
      constructor
      · rintro ⟨hbr, hall⟩
        refine ⟨hbr, fun x hx => ?_⟩
        rcases List.mem_cons.mp hx with rfl | hx
        · exact hb
        · exact hall x hx
      · rintro ⟨hbr, hall⟩
        exact ⟨hbr, fun x hx => hall x (List.mem_cons_of_mem b hx)⟩

/-- C10: highestLeaderNetTX returns no broker exactly when every leader's
NetTX is at most 0.00 (vacuously so for an empty leader list), because the
high-water mark starts at 0.00 and only strictly greater values replace
it; updateReplicationThrottle feeds the result to Limits.headroom with no
nil check, so under that precondition the flow dereferences a nil broker
(modelled as none). -/
theorem highestLeaderNetTX_nil_dereference (t : ThrottledReplicas)
    (b : List (Int × KMBroker)) (c : List (String × TopicConfig))
    (brokers : ThrottledReplicas) :
    (highestLeaderNetTX t = none ↔ ∀ x ∈ t.leaders, x.netTX ≤ 0)
    ∧ (highestLeaderNetTX t = none → throttleFlowTail t = none)
    ∧ (replicasFromTopicConfigs b c = some (brokers, []) →
        updateReplicationThrottleFrom b c = throttleFlowTail brokers) := by
  refine ⟨?_, ?_, ?_⟩
  · unfold highestLeaderNetTX
    rw [hlLoop_none_iff]
    simp
  · intro h
    unfold throttleFlowTail
    rw [h]
  · intro h
    unfold updateReplicationThrottleFrom
    rw [h]
    simp

/-- Witness for C10: a leader list whose throughputs are all at most zero
makes the throttle flow dereference a nil broker. -/
theorem highestLeaderNetTX_nil_dereference_witness :
    throttleFlowTail ⟨[⟨1, "d2.xlarge", 0⟩, ⟨2, "d2.xlarge", -3⟩], []⟩ = none :=
  (highestLeaderNetTX_nil_dereference ⟨[⟨1, "d2.xlarge", 0⟩, ⟨2, "d2.xlarge", -3⟩], []⟩
      [] [] ⟨[], []⟩).2.1
    ((highestLeaderNetTX_nil_dereference ⟨[⟨1, "d2.xlarge", 0⟩, ⟨2, "d2.xlarge", -3⟩], []⟩
      [] [] ⟨[], []⟩).1.mpr (by norm_num))

/-- C9 counterexample: the second entry of this input has no colon, yet
brokersFromThrottleList does return (carrying the error of the first
entry, whose ID fails to parse) instead of panicking: a colon-less entry
does not always keep the function from returning. -/
theorem brokersFromThrottleList_counterexample :
    entryHasColon ("x".data) = false
    ∧ ("x".data) ∈ splitChar ',' ("q:q,x").data
    ∧ brokersFromThrottleList ("q:q,x") = some ([], some ("Bad broker ID q")) := by
  decide

theorem btlLoop_none_iff (rs : List (List Char)) (acc : List Int) :
    btlLoop rs acc = none ↔
      ∃ r, firstBadEntry rs = some r ∧ entryHasColon r = false := by
  induction rs generalizing acc with
  | nil => simp [btlLoop, firstBadEntry]
  | cons r rest ih =>
    cases hg : (splitChar ':' r).get? 1 with
    | none =>
      rw [List.get?_eq_getElem?] at hg
      have h2 : entryParses r = false := by simp [entryParses, hg]
      have h3 : entryHasColon r = false := by simp [entryHasColon, hg]
      have h4 : firstBadEntry (r :: rest) = some r := by simp [firstBadEntry, h2]
      simp [btlLoop, hg, h4, h3]
    | some ids =>
      rw [List.get?_eq_getElem?] at hg
      cases ha : atoi ids with
      | none =>
        have h2 : entryParses r = false := by simp [entryParses, hg, ha]
        have h3 : entryHasColon r = true := by simp [entryHasColon, hg]
        have h4 : firstBadEntry (r :: rest) = some r := by simp [firstBadEntry, h2]
        simp [btlLoop, hg, ha, h4, h3]
      | some id =>
        have h2 : entryParses r = true := by simp [entryParses, hg, ha]
        have h4 : firstBadEntry (r :: rest) = firstBadEntry rest := by
          simp [firstBadEntry, h2]
        have h1 : btlLoop (r :: rest) acc = btlLoop rest (acc ++ [id]) := by
          simp [btlLoop, hg, ha]
        rw [h1, h4, ih]

theorem firstBadEntry_mem (rs : List (List Char)) (r : List Char)
    (h : firstBadEntry rs = some r) : r ∈ rs := by
  induction rs with
  | nil => cases h
  | cons x rest ih =>
    unfold firstBadEntry at h
    split_ifs at h with hx
    · exact List.mem_cons_of_mem x (ih h)
    · rw [Option.some.injEq] at h
      subst h
      exact List.mem_cons_self x rest

/-- C9 amended: brokersFromThrottleList fails to return (the index
expression strings.Split(r, ":")[1] panics) exactly when, scanning the
comma-separated entries in order, the first ill-formed entry lacks a
colon; an earlier entry with a colon but an unparsable ID makes the
function return an error value instead.  Consequently the function is
total on inputs all of whose entries contain a colon; the empty string
splits into one empty, colon-less entry and panics. -/
theorem brokersFromThrottleList_panic_iff (l : String) :
    (brokersFromThrottleList l = none ↔
      ∃ r, firstBadEntry (splitChar ',' l.data) = some r ∧ entryHasColon r = false)
    ∧ ((∀ r ∈ splitChar ',' l.data, entryHasColon r = true) →
        brokersFromThrottleList l ≠ none) := by
  constructor
  · exact btlLoop_none_iff (splitChar ',' l.data) []
  · intro hall hnone
    obtain ⟨r, hr, hrc⟩ := (btlLoop_none_iff (splitChar ',' l.data) []).mp hnone
    rw [hall r (firstBadEntry_mem (splitChar ',' l.data) r hr)] at hrc
    cases hrc

/-- Witness for the amended C9: the empty string panics. -/
theorem brokersFromThrottleList_panic_iff_witness :
    brokersFromThrottleList "" = none :=
  (brokersFromThrottleList_panic_iff "").1.mpr ⟨[], by decide, by decide⟩

theorem foldl_map_swap (pairs : List (Int × Int)) (reps : List Int) :
    pairs.foldl (fun rs pr => rs.map (fun r => if r = pr.1 then pr.2 else r)) reps
      = reps.map
          (fun r => pairs.foldl (fun cur pr => if cur = pr.1 then pr.2 else cur) r) := by
  induction pairs generalizing reps with
  | nil => simp
  | cons pr rest ih =>
    rw [List.foldl_cons, ih, List.map_map]
    rfl

theorem entryFold_nomatch_cur (pairs : List (Int × Int)) (cur : Int)
    (h : ∀ pr ∈ pairs, cur ≠ pr.1) :
    pairs.foldl (fun c pr => if c = pr.1 then pr.2 else c) cur = cur := by
  induction pairs with
  | nil => rfl
  | cons pr rest ih =>
    rw [List.foldl_cons, if_neg (h pr (List.mem_cons_self pr rest))]
    exact ih (fun q hq => h q (List.mem_cons_of_mem pr hq))

theorem lastMatch_nomatch (pairs : List (Int × Int)) (r cur : Int)
    (h : ∀ pr ∈ pairs, r ≠ pr.1) :
    pairs.foldl (fun c pr => if r = pr.1 then pr.2 else c) cur = cur := by
  induction pairs generalizing cur with
  | nil => rfl
  | cons pr rest ih =>
    rw [List.foldl_cons, if_neg (h pr (List.mem_cons_self pr rest))]
    exact ih cur (fun q hq => h q (List.mem_cons_of_mem pr hq))

theorem entry_seq_eq_lastMatch (pairs : List (Int × Int)) (r : Int)
    (hsrc : pairs.Pairwise (fun a b => a.1 ≠ b.1))
    (hchain : pairs.Pairwise (fun a b => a.2 ≠ b.1)) :
    pairs.foldl (fun c pr => if c = pr.1 then pr.2 else c) r
      = pairs.foldl (fun c pr => if r = pr.1 then pr.2 else c) r := by
  induction pairs with
  | nil => rfl
  | cons pr rest ih =>
    rw [List.foldl_cons, List.foldl_cons]
    rcases List.pairwise_cons.mp hsrc with ⟨hsrc1, hsrc2⟩
    rcases List.pairwise_cons.mp hchain with ⟨hchain1, hchain2⟩
    by_cases hr : r = pr.1
    · rw [if_pos hr, entryFold_nomatch_cur rest pr.2 (fun q hq => hchain1 q hq),
        lastMatch_nomatch rest r pr.2 (fun q hq => by rw [hr]; exact hsrc1 q hq)]
    · rw [if_neg hr]
      exact ih hsrc2 hchain2

theorem applyPairs_eq_inOrder (reps : List Int) (pairs : List (Int × Int))
    (hsrc : pairs.Pairwise (fun a b => a.1 ≠ b.1))
    (hchain : pairs.Pairwise (fun a b => a.2 ≠ b.1)) :
    applyPairs reps pairs = applyPairsInOrder reps pairs := by
  unfold applyPairs applyPairsInOrder
  rw [foldl_map_swap]
  refine List.map_congr_left (fun r _ => ?_)
  exact (entry_seq_eq_lastMatch pairs r hsrc hchain).symm

theorem lookupA_val_mem {α β : Type} [DecidableEq α] (l : List (α × β)) (k : α)
    (v : β) (h : lookupA l k = some v) : v ∈ l.map (fun e => e.2) := by
  induction l with
  | nil => cases h
  | cons e rest ih =>
    obtain ⟨k', v'⟩ := e
    unfold lookupA at h
    split_ifs at h with hk
    · rw [Option.some.injEq] at h
      subst h
      exact List.mem_cons_self v' _
    · exact List.mem_cons_of_mem v' (ih h)

theorem planIsPlanned_mem (plan : relocationPlan) (p : Partition)
    (pairs : List (Int × Int)) (h : planIsPlanned plan p = some pairs) :
    pairs ∈ planPairLists plan := by
  unfold planIsPlanned at h
  cases ht : lookupA plan p.topic with
  | none => rw [ht] at h; cases h
  | some parts =>
    rw [ht] at h
    have h1 : parts ∈ plan.map (fun e => e.2) := lookupA_val_mem plan p.topic parts ht
    have h2 : pairs ∈ parts.map (fun e => e.2) := lookupA_val_mem parts p.partition pairs h
    unfold planPairLists
    rw [List.mem_flatten]
    obtain ⟨e, he, hep⟩ := List.mem_map.mp h1
    exact ⟨e.2.map (fun q => q.2), List.mem_map_of_mem _ he, hep ▸ h2⟩

/-- C5 counterexample: the chain (1,2),(2,3) planned for partition t/0
with replica set [1] is sequentially valid in the spec's sense, yet the
code rewrites the set to [2] — each pair is compared against the
original entry — while applying the chain in order yields [3]. -/
theorem applyRelocationPlan_counterexample :
    seqValidPairs [1] [(1, 2), (2, 3)] = true
    ∧ applyRelocationPlan [⟨"t", 0, [1]⟩]
        (planAdd (planAdd [] ⟨"t", 0, [1]⟩ (1, 2)) ⟨"t", 0, [1]⟩ (2, 3))
      ≠ applyPlanInOrder [⟨"t", 0, [1]⟩]
        (planAdd (planAdd [] ⟨"t", 0, [1]⟩ (1, 2)) ⟨"t", 0, [1]⟩ (2, 3)) := by
  decide

/-- C5 amended: plan application walks the partition map once and rewrites
each planned partition deterministically from its chain; provided
additionally that within every planned chain no two pairs share a source
ID and no pair's destination ID occurs as a later pair's source ID (so no
chain has to compose through an intermediate value), the rewrite equals
applying the chain of (source, destination) pairs in the order they were
recorded. -/
theorem applyRelocationPlan_eq_inOrder (pm : List Partition) (plan : relocationPlan)
    (h : ∀ l ∈ planPairLists plan,
      l.Pairwise (fun a b => a.1 ≠ b.1) ∧ l.Pairwise (fun a b => a.2 ≠ b.1)) :
    applyRelocationPlan pm plan = applyPlanInOrder pm plan := by
  unfold applyRelocationPlan applyPlanInOrder
  refine List.map_congr_left (fun p _ => ?_)
  cases hq : planIsPlanned plan p with
  | none => rfl
  | some pairs =>
    obtain ⟨h1, h2⟩ := h pairs (planIsPlanned_mem plan p pairs hq)
    show Partition.mk p.topic p.partition (applyPairs p.replicas pairs)
        = Partition.mk p.topic p.partition (applyPairsInOrder p.replicas pairs)
    rw [applyPairs_eq_inOrder p.replicas pairs h1 h2]

/-- Witness for the amended C5 on a one-pair plan. -/
theorem applyRelocationPlan_eq_inOrder_witness :
    applyRelocationPlan [⟨"t", 0, [1, 4]⟩] (planAdd [] ⟨"t", 0, [1, 4]⟩ (1, 2))
      = applyPlanInOrder [⟨"t", 0, [1, 4]⟩] (planAdd [] ⟨"t", 0, [1, 4]⟩ (1, 2)) :=
  applyRelocationPlan_eq_inOrder [⟨"t", 0, [1, 4]⟩]
    (planAdd [] ⟨"t", 0, [1, 4]⟩ (1, 2)) (by decide)

theorem relosGet_relosAppend_self (rs : List (Int × List relocation)) (k : Int)
    (x : relocation) :
    relosGet (relosAppend rs k x) k = relosGet rs k ++ [x] := by
  induction rs with
  | nil => simp [relosAppend, relosGet, lookupA]
  | cons e rest ih =>
    obtain ⟨k', l⟩ := e
    unfold relosAppend
    split_ifs with hk
    · subst hk
      simp [relosGet, lookupA]
    · simp only [relosGet, lookupA, if_neg hk] at ih ⊢
      exact ih

theorem planLoop_count (ctx : PlanCtx) (l : List Partition) (st : PlanState)
    (cnt n : Nat) (st' : PlanState) (h : planLoop ctx l st cnt = some (n, st')) :
    (n = cnt ∧ st'.relos = st.relos) ∨
      (n = cnt + 1 ∧ ∃ p d, st'.relos = relosAppend st.relos ctx.sourceID ⟨p, d⟩) := by
  induction l generalizing st cnt with
  | nil =>
    simp only [planLoop, Option.some.injEq, Prod.mk.injEq] at h
    exact Or.inl ⟨h.1.symm, by rw [← h.2]⟩
  | cons p rest ih =>
    rw [planLoop] at h
    cases hs : selectDest ctx st.brokers p with
    | none => rw [hs] at h; cases h
    | some od =>
      obtain ⟨o, bm'⟩ := od
      rw [hs] at h
      cases o with
      | none =>
        dsimp only at h
        simp only [Option.some.injEq, Prod.mk.injEq] at h
        exact Or.inl ⟨h.1.symm, by rw [← h.2]⟩
      | some dest =>
        dsimp only at h
        cases hg : bmGet bm' ctx.sourceID with
        | none => rw [hg] at h; dsimp only at h; cases h
        | some src =>
          rw [hg] at h
          dsimp only at h
          split_ifs at h with h1 h2
          · exact ih { st with brokers := bm' } cnt h
          · exact ih { st with brokers := bm' } cnt h
          · simp only [Option.some.injEq, Prod.mk.injEq] at h
            refine Or.inr ⟨h.1.symm, p, dest.id, ?_⟩
            rw [← h.2]

/-- C2: one invocation of planRelocationsForBroker records at most one
relocation: the returned relocation count is 0 or 1, and the per-source
relocation slice for that source grows by at most one entry. -/
theorem planRelocationsForBroker_at_most_one (tolerance : ℚ) (ls : Bool)
    (params : PlanParams) (n : Nat) (st' : PlanState)
    (h : planRelocationsForBroker tolerance ls params = some (n, st')) :
    n ≤ 1 ∧ (relosGet st'.relos params.sourceID).length
      ≤ (relosGet params.relos params.sourceID).length + 1 := by
  unfold planRelocationsForBroker at h
  cases hg : bmGet params.brokers params.sourceID with
  | none => rw [hg] at h; cases h
  | some src0 =>
    rw [hg] at h
    rcases planLoop_count _ _ _ _ _ _ h with ⟨hn, hr⟩ | ⟨hn, p, d, hr⟩
    · subst hn
      refine ⟨Nat.zero_le 1, ?_⟩
      rw [hr]
      exact Nat.le_succ _
    · subst hn
      refine ⟨le_refl 1, ?_⟩
      rw [hr, relosGet_relosAppend_self]
      simp

/-- Witness for C2: a source broker with no mapped partitions yields a
plan with zero relocations and an unchanged relocation slice. -/
theorem planRelocationsForBroker_at_most_one_witness :
    (0 : Nat) ≤ 1 ∧
      (relosGet (PlanState.mk [⟨1, "", 5, 0, false, false, false⟩] [] [] []).relos 1).length
        ≤ (relosGet ([] : List (Int × List relocation)) 1).length + 1 :=
  planRelocationsForBroker_at_most_one 0 false
    ⟨1, [], [], [⟨1, "", 5, 0, false, false, false⟩], [], [], 0, 5, []⟩ 0
    ⟨[⟨1, "", 5, 0, false, false, false⟩], [], [], []⟩ rfl

theorem mergeConstraintsLoop_requestSize (bl : List Broker) (c : constraints) :
    (mergeConstraintsLoop c bl).requestSize = c.requestSize := by
  induction bl generalizing c with
  | nil => rfl
  | cons b rest ih =>
    unfold mergeConstraintsLoop
    split_ifs <;> exact ih _

theorem constraintsFold_requestSize (ids : List Int) (c : constraints) :
    (ids.foldl (fun c id => (constraintsAdd c (emptyBrokerWithID id)).1) c).requestSize
      = c.requestSize := by
  induction ids generalizing c with
  | nil => rfl
  | cons i rest ih => exact ih _

theorem bcLoop_success_mem (c : constraints) (l : List Broker) (e0 : Option String)
    (d : Broker) (h : (bcLoop c l e0).1.1 = some d) :
    ∃ b0 ∈ l, d = { b0 with
      storageFree := b0.storageFree - c.requestSize,
      used := b0.used + 1 } := by
  induction l generalizing e0 with
  | nil => simp [bcLoop] at h
  | cons b rest ih =>
    cases hp : passes c b with
    | none =>
      have hb : (bcLoop c (b :: rest) e0).1.1
          = some { b with
              storageFree := b.storageFree - c.requestSize,
              used := b.used + 1 } := by
        simp [bcLoop, hp, constraintsAdd]
      rw [hb] at h
      rw [Option.some.injEq] at h
      exact ⟨b, List.mem_cons_self b rest, h.symm⟩
    | some e =>
      have hb : (bcLoop c (b :: rest) e0).1.1 = (bcLoop c rest (some e)).1.1 := by
        simp [bcLoop, hp]
      rw [hb] at h
      obtain ⟨b0, hb0, hd⟩ := ih (some e) h
      exact ⟨b0, List.mem_cons_of_mem b hb0, hd⟩

theorem bmSet_id_absent (rest : BrokerMap) (d : Broker)
    (h : ∀ y ∈ rest, y.id ≠ d.id) : bmSet rest d = rest := by
  induction rest with
  | nil => rfl
  | cons y ys ih =>
    show (if y.id = d.id then d else y) :: bmSet ys d = y :: ys
    rw [if_neg (h y (List.mem_cons_self y ys)),
      ih (fun z hz => h z (List.mem_cons_of_mem y hz))]

theorem bmSet_preserves_storage (bm : BrokerMap) (d : Broker)
    (hdist : bm.Pairwise (fun a b => a.id ≠ b.id))
    (b0 : Broker) (hb0 : b0 ∈ bm) (hid : d.id = b0.id)
    (hsf : d.storageFree = b0.storageFree) (i : Int) :
    (bmGet (bmSet bm d) i).map (fun b => b.storageFree)
      = (bmGet bm i).map (fun b => b.storageFree) := by
  induction bm with
  | nil => rfl
  | cons x rest ih =>
    rcases List.pairwise_cons.mp hdist with ⟨hx, hrest⟩
    rcases List.mem_cons.mp hb0 with rfl | hb0r
    · show (bmGet ((if b0.id = d.id then d else b0) :: bmSet rest d) i).map _ = _
      rw [if_pos hid.symm]
      by_cases hi : b0.id = i
      · show (bmGet (d :: bmSet rest d) i).map _ = (bmGet (b0 :: rest) i).map _
        unfold bmGet
        rw [if_pos (hid.trans hi), if_pos hi]
        simp [hsf]
      · show (bmGet (d :: bmSet rest d) i).map _ = (bmGet (b0 :: rest) i).map _
        unfold bmGet
        rw [if_neg (fun hdi => hi (hid.symm.trans hdi)), if_neg hi,
          bmSet_id_absent rest d (fun y hy hyd => hx y hy (hyd.trans hid).symm)]
    · have hxd : x.id ≠ d.id := fun hxd => hx b0 hb0r (hxd.trans hid)
      show (bmGet ((if x.id = d.id then d else x) :: bmSet rest d) i).map _ = _
      rw [if_neg hxd]
      by_cases hi : x.id = i
      · show (bmGet (x :: bmSet rest d) i).map _ = (bmGet (x :: rest) i).map _
        unfold bmGet
        rw [if_pos hi, if_pos hi]
      · show (bmGet (x :: bmSet rest d) i).map _ = (bmGet (x :: rest) i).map _
        unfold bmGet
        rw [if_neg hi, if_neg hi]
        exact ih hrest hb0r

theorem selectDest_preserves_storage (ctx : PlanCtx) (bm : BrokerMap)
    (p : Partition) (od : Option Broker) (bm' : BrokerMap)
    (hdist : bm.Pairwise (fun a b => a.id ≠ b.id))
    (h : selectDest ctx bm p = some (od, bm')) (i : Int) :
    (bmGet bm' i).map (fun b => b.storageFree)
      = (bmGet bm i).map (fun b => b.storageFree) := by
  unfold selectDest at h
  split_ifs at h with hls
  · rw [Option.some.injEq, Prod.mk.injEq] at h
    rw [← h.2]
  · cases hra : bmGetAll bm (p.replicas.filter (fun id => id != ctx.sourceID)) with
    | none => rw [hra] at h; cases h
    | some replicaSet =>
      rw [hra] at h
      dsimp only at h
      cases hbc : (bestCandidate (sortByStorage bm)
          (ctx.offloadTargets.foldl
            (fun c id => (constraintsAdd c (emptyBrokerWithID id)).1)
            (mergeConstraints replicaSet)) "storage" 0).1.1 with
      | none =>
        rw [hbc] at h
        rw [Option.some.injEq, Prod.mk.injEq] at h
        rw [← h.2]
      | some d =>
        rw [hbc] at h
        rw [Option.some.injEq, Prod.mk.injEq] at h
        have hreq : (ctx.offloadTargets.foldl
            (fun c id => (constraintsAdd c (emptyBrokerWithID id)).1)
            (mergeConstraints replicaSet)).requestSize = 0 := by
          rw [constraintsFold_requestSize]
          exact mergeConstraintsLoop_requestSize replicaSet newConstraints
        have hsucc : (bcLoop (ctx.offloadTargets.foldl
            (fun c id => (constraintsAdd c (emptyBrokerWithID id)).1)
            (mergeConstraints replicaSet)) (sortByStorage (sortByStorage bm))
              none).1.1 = some d := hbc
        obtain ⟨b0, hb0, hd⟩ := bcLoop_success_mem _ _ _ d hsucc
        have hb0m : b0 ∈ bm :=
          (sortBy_perm storageLe bm).mem_iff.mp
            ((sortBy_perm storageLe (sortByStorage bm)).mem_iff.mp hb0)
        have hid : d.id = b0.id := by rw [hd]
        have hsf : d.storageFree = b0.storageFree := by
          rw [hd]
          show b0.storageFree - _ = b0.storageFree
          rw [hreq, sub_zero]
        rw [← h.2]
        exact bmSet_preserves_storage bm d hdist b0 hb0m hid hsf i

/-- C1: in the relocation loop, a candidate partition of size pSize with
chosen destination is rejected — the loop moves on to the next partition
with no plan entry recorded and no storage_free value changed — exactly
when source.storage_free + pSize exceeds mean·(1+tolerance) or
destination.storage_free − pSize falls below mean·(1−tolerance);
otherwise the relocation is recorded and the source's storage_free
becomes source+size while the destination's becomes destination−size. -/
theorem planLoop_reject_accept (ctx : PlanCtx) (st : PlanState) (cnt : Nat)
    (p : Partition) (rest : List Partition) (dest : Broker) (bm' : BrokerMap)
    (src : Broker)
    (hdist : st.brokers.Pairwise (fun a b => a.id ≠ b.id))
    (hsel : selectDest ctx st.brokers p = some (some dest, bm'))
    (hsrc : bmGet bm' ctx.sourceID = some src) :
    ((src.storageFree + (pmmSize ctx.partitionMeta p).getD 0
        > ctx.meanStorageFree * (1 + ctx.tolerance)
      ∨ dest.storageFree - (pmmSize ctx.partitionMeta p).getD 0
        < ctx.meanStorageFree * (1 - ctx.tolerance)) →
      (planLoop ctx (p :: rest) st cnt
          = planLoop ctx rest { st with brokers := bm' } cnt
        ∧ ∀ i, (bmGet bm' i).map (fun b => b.storageFree)
            = (bmGet st.brokers i).map (fun b => b.storageFree)))
    ∧ (¬ (src.storageFree + (pmmSize ctx.partitionMeta p).getD 0
        > ctx.meanStorageFree * (1 + ctx.tolerance)
      ∨ dest.storageFree - (pmmSize ctx.partitionMeta p).getD 0
        < ctx.meanStorageFree * (1 - ctx.tolerance)) →
      planLoop ctx (p :: rest) st cnt = some (cnt + 1,
        { brokers := bmSetStorage (bmSetStorage bm' ctx.sourceID
              (src.storageFree + (pmmSize ctx.partitionMeta p).getD 0))
            dest.id (dest.storageFree - (pmmSize ctx.partitionMeta p).getD 0),
          relos := relosAppend st.relos ctx.sourceID ⟨p, dest.id⟩,
          plan := planAdd st.plan p (ctx.sourceID, dest.id),
          mappings := mappingsRemove st.mappings ctx.sourceID p })) := by
  have hunf : planLoop ctx (p :: rest) st cnt =
      (if src.storageFree + (pmmSize ctx.partitionMeta p).getD 0
          > ctx.meanStorageFree * (1 + ctx.tolerance) then
        planLoop ctx rest { st with brokers := bm' } cnt
      else if dest.storageFree - (pmmSize ctx.partitionMeta p).getD 0
          < ctx.meanStorageFree * (1 - ctx.tolerance) then
        planLoop ctx rest { st with brokers := bm' } cnt
      else
        some (cnt + 1,
          { brokers := bmSetStorage (bmSetStorage bm' ctx.sourceID
                (src.storageFree + (pmmSize ctx.partitionMeta p).getD 0))
              dest.id (dest.storageFree - (pmmSize ctx.partitionMeta p).getD 0),
            relos := relosAppend st.relos ctx.sourceID ⟨p, dest.id⟩,
            plan := planAdd st.plan p (ctx.sourceID, dest.id),
            mappings := mappingsRemove st.mappings ctx.sourceID p })) := by
    rw [planLoop, hsel]
    dsimp only
    rw [hsrc]
  constructor
  · intro h
    refine ⟨?_, fun i => selectDest_preserves_storage ctx st.brokers p
      (some dest) bm' hdist hsel i⟩
    rw [hunf]
    by_cases h1 : src.storageFree + (pmmSize ctx.partitionMeta p).getD 0
        > ctx.meanStorageFree * (1 + ctx.tolerance)
    · rw [if_pos h1]
    · rw [if_neg h1]
      rcases h with h | h
      · exact absurd h h1
      · rw [if_pos h]
  · intro h
    push_neg at h
    rw [hunf, if_neg (not_lt.mpr h.1), if_neg (not_lt.mpr h.2)]

/-- Witness for C1 at a concrete rejected relocation: moving the
partition would push the source's storage free above the tolerated
limit, so the loop records nothing and moves on (and, the partition list
being exhausted, returns count 0 with the state unchanged). -/
theorem planLoop_reject_accept_witness :
    planLoop ⟨1, "r", [], true, 0, 10, []⟩ [⟨"t", 0, [1]⟩]
        ⟨[⟨1, "q", 100, 0, false, false, false⟩, ⟨2, "r", 50, 0, false, false, false⟩],
          [], [], []⟩ 0
      = some (0,
          ⟨[⟨1, "q", 100, 0, false, false, false⟩, ⟨2, "r", 50, 0, false, false, false⟩],
            [], [], []⟩) := by
  have h := (planLoop_reject_accept ⟨1, "r", [], true, 0, 10, []⟩
    ⟨[⟨1, "q", 100, 0, false, false, false⟩, ⟨2, "r", 50, 0, false, false, false⟩],
      [], [], []⟩ 0 ⟨"t", 0, [1]⟩ []
    ⟨2, "r", 50, 0, false, false, false⟩
    [⟨1, "q", 100, 0, false, false, false⟩, ⟨2, "r", 50, 0, false, false, false⟩]
    ⟨1, "q", 100, 0, false, false, false⟩
    (by decide)
    (by
      norm_num [selectDest, sortByStorage, sortBy, insertBy, storageLe,
        List.find?, List.contains]
      rfl)
    rfl).1 (Or.inl (by norm_num [pmmSize, lookupA]))
  exact h.1.trans rfl

end KafkaKit
